import Mathlib

/-
Shallow embedding of the volumetric interpolation fitting engine
(Fit.py and Model.py of the volumetricinterp repository) over exact
arithmetic (rationals for the linear algebra, reals for the special
functions), together with proofs settling the specification claims.

External numeric routines (scipy.linalg.lstsq, scipy.linalg.pinv,
scipy.optimize.brentq, scipy.optimize.minimize, and the float power
10.0 ** x) are modelled as abstract function parameters collected in
the NumLib structure; everything else is translated directly from the
source.
-/

open Matrix

/-- A Python float entry that is either an actual (finite) value,
modelled as a rational, or NaN.  Mirrors the NaN bookkeeping of the
numpy arrays in Fit.py. -/
inductive RVal where
  | val (q : ℚ)
  | nan
  deriving DecidableEq, Repr

/-- numpy semantics of `x > c`: False when x is NaN. -/
def RVal.qlt (c : ℚ) : RVal → Bool
  | .val q => decide (c < q)
  | .nan => false

/-- numpy semantics of `x < c`: False when x is NaN. -/
def RVal.ltq : RVal → ℚ → Bool
  | .val q, c => decide (q < c)
  | .nan, _ => false

/-- numpy subtraction of a scalar from a float entry: NaN propagates. -/
def RVal.sub (v : RVal) (c : ℚ) : RVal :=
  match v with
  | .val q => .val (q - c)
  | .nan => .nan

/-- np.isfinite on a float entry. -/
def RVal.isFinite : RVal → Bool
  | .val _ => true
  | .nan => false

/-- np.isnan on a float entry. -/
def RVal.isNaN : RVal → Bool
  | .val _ => false
  | .nan => true

/-- Underlying rational of a finite entry (junk value 0 on NaN; only
used in branches that are guarded by a NaN check). -/
def RVal.toQ : RVal → ℚ
  | .val q => q
  | .nan => 0

/-- View of a float entry as an optional rational (none for NaN). -/
def RVal.toOption : RVal → Option ℚ
  | .val q => some q
  | .nan => none

/-- Python exceptions that the translated Fit.py code can raise. -/
inductive PyErr where
  | valueError (msg : String)
  | typeError (msg : String)
  | unboundLocalError (msg : String)
  | nameError (msg : String)
  deriving DecidableEq, Repr

/-- The four regularization-parameter search strategies that the
reg_methods dictionary of Fit.find_reg_param can dispatch to. -/
inductive RegMethod where
  | chi2m
  | gcvm
  | manualm
  | promptm
  deriving DecidableEq, Repr

/-- Abstract interface to the scipy/numpy numeric routines used by
Fit.py.  pow10 models the float 10.0 ** x for an arbitrary float
exponent; brentq models scipy.optimize.brentq applied to an objective
and a bracketing interval; nelderMead models scipy.optimize.minimize
with method Nelder-Mead, returning none when the minimizer reports
failure and some x for the minimizing argument otherwise; lstsq models
scipy.linalg.lstsq (returning only the solution vector) and pinv
models scipy.linalg.pinv.  The regularized system matrix X handed to
lstsq and pinv in Fit.eval_C is always nbasis-by-nbasis, so the solver
fields are fixed at that shape. -/
structure NumLib (nb : ℕ) where
  pow10 : ℚ → ℚ
  brentq : (ℚ → ℚ) → ℚ → ℚ → ℚ
  nelderMead : (ℚ → ℚ) → ℚ → Option ℚ
  lstsq : Matrix (Fin nb) (Fin nb) ℚ → (Fin nb → ℚ) → Fin nb → ℚ
  pinv : Matrix (Fin nb) (Fin nb) ℚ → Matrix (Fin nb) (Fin nb) ℚ

/-- numpy broadcast W*A in Fit.eval_C, where W is an (npoints, 1)
column of weights: row i of A is scaled by W i. -/
def rowScale {N nb : ℕ} (W : Fin N → ℚ) (A : Matrix (Fin N) (Fin nb) ℚ) :
    Matrix (Fin N) (Fin nb) ℚ :=
  Matrix.of fun i j => W i * A i j

/-- AWA = np.dot(A.T, W*A) in Fit.eval_C. -/
def AWA {N nb : ℕ} (A : Matrix (Fin N) (Fin nb) ℚ) (W : Fin N → ℚ) :
    Matrix (Fin nb) (Fin nb) ℚ :=
  Aᵀ * rowScale W A

/-- y = np.dot(A.T, W*b) in Fit.eval_C. -/
def normalRHS {N nb : ℕ} (A : Matrix (Fin N) (Fin nb) ℚ) (W b : Fin N → ℚ) :
    Fin nb → ℚ :=
  Aᵀ *ᵥ fun i => W i * b i

/-- The loop in Fit.eval_C that accumulates the regularization terms:
X starts as np.dot(A.T, W*A) and then X = X + reg_params[reg] * reg_matrices[reg]
for every reg in self.regularization_list. -/
def regX {N nb : ℕ} (regList : List String)
    (regMats : String → Matrix (Fin nb) (Fin nb) ℚ) (regParams : String → ℚ)
    (A : Matrix (Fin N) (Fin nb) ℚ) (W : Fin N → ℚ) :
    Matrix (Fin nb) (Fin nb) ℚ :=
  regList.foldl (fun X reg => X + regParams reg • regMats reg) (AWA A W)

/-- Fit.eval_C with calccov=False: build the regularized system
X C = y and hand it to the least-squares solver. -/
def eval_C {N nb : ℕ}
    (lstsq : Matrix (Fin nb) (Fin nb) ℚ → (Fin nb → ℚ) → Fin nb → ℚ)
    (regList : List String) (regMats : String → Matrix (Fin nb) (Fin nb) ℚ)
    (regParams : String → ℚ) (A : Matrix (Fin N) (Fin nb) ℚ) (b W : Fin N → ℚ) :
    Fin nb → ℚ :=
  lstsq (regX regList regMats regParams A W) (normalRHS A W b)

/-- Fit.eval_C with calccov=True: additionally computes
H = scipy.linalg.pinv(X) and dC = np.dot(H, np.dot(AWA, H.T)). -/
def eval_C_cov {N nb : ℕ}
    (lstsq : Matrix (Fin nb) (Fin nb) ℚ → (Fin nb → ℚ) → Fin nb → ℚ)
    (pinv : Matrix (Fin nb) (Fin nb) ℚ → Matrix (Fin nb) (Fin nb) ℚ)
    (regList : List String) (regMats : String → Matrix (Fin nb) (Fin nb) ℚ)
    (regParams : String → ℚ) (A : Matrix (Fin N) (Fin nb) ℚ) (b W : Fin N → ℚ) :
    (Fin nb → ℚ) × Matrix (Fin nb) (Fin nb) ℚ :=
  let X := regX regList regMats regParams A W
  let C := lstsq X (normalRHS A W b)
  let H := pinv X
  (C, H * (AWA A W * Hᵀ))

/-- Defining property of scipy.linalg.lstsq: the returned vector c is a
minimizer of the euclidean norm of X·c - y, which for exact arithmetic
is equivalent to satisfying the normal equations of the least-squares
problem. -/
def lstsqSpec {nb : ℕ} (X : Matrix (Fin nb) (Fin nb) ℚ) (y c : Fin nb → ℚ) : Prop :=
  (Xᵀ * X) *ᵥ c = Xᵀ *ᵥ y

/-- Row permutation of a design matrix: row i of the result is row
sigma(i) of A. -/
def permRows {N nb : ℕ} (sigma : Equiv.Perm (Fin N))
    (A : Matrix (Fin N) (Fin nb) ℚ) : Matrix (Fin N) (Fin nb) ℚ :=
  Matrix.of fun i j => A (sigma i) j

/-- Modelled from the spec: the covariance estimator as written in the
specification, dC = H (A^T W A) H^T with H the pseudo-inverse of
X = A^T W A + sum over kinds of regParams[kind] * regMatrices[kind]. -/
def specCovariance {N nb : ℕ}
    (pinv : Matrix (Fin nb) (Fin nb) ℚ → Matrix (Fin nb) (Fin nb) ℚ)
    (regList : List String) (regMats : String → Matrix (Fin nb) (Fin nb) ℚ)
    (regParams : String → ℚ) (A : Matrix (Fin N) (Fin nb) ℚ) (W : Fin N → ℚ) :
    Matrix (Fin nb) (Fin nb) ℚ :=
  let X := AWA A W + (regList.map fun reg => regParams reg • regMats reg).sum
  let H := pinv X
  H * AWA A W * Hᵀ

/-- Model.basis_numbers: decompose a flat basis index n into the radial
index k, the latitudinal index l and the azimuthal index m, via
k = n div maxl^2, r = n mod maxl^2, l = floor(sqrt(r)), m = r - l(l+1). -/
def basis_numbers (maxl : ℕ) (n : ℕ) : ℕ × ℕ × ℤ :=
  let k := n / maxl ^ 2
  let r := n % maxl ^ 2
  let l := Nat.sqrt r
  (k, l, (r : ℤ) - l * (l + 1))

/-- Model.Kvm before the m-dependent factor: the square root of
(2v+1)/(4 pi) * Gamma(v-m+1) / Gamma(v+m+1), exactly the expression
np.sqrt((2*v+1)/(4*np.pi)*sp.gamma(float(v-m+1))/sp.gamma(float(v+m+1))). -/
noncomputable def KvmBase (v : ℝ) (m : ℤ) : ℝ :=
  Real.sqrt ((2 * v + 1) / (4 * Real.pi) * Real.Gamma (v - m + 1) / Real.Gamma (v + m + 1))

/-- Model.Kvm: the normalization constant, multiplied by sqrt(2) when
m is nonzero (the line Kvm = Kvm*np.sqrt(2) under the check m != 0). -/
noncomputable def Kvm (v : ℝ) (m : ℤ) : ℝ :=
  let k := KvmBase v m
  if m ≠ 0 then k * Real.sqrt 2 else k

/-- The value the claim asserts for Kvm: the base normalization,
doubled when m is nonzero. -/
noncomputable def KvmClaimed (v : ℝ) (m : ℤ) : ℝ :=
  if m = 0 then KvmBase v m else 2 * KvmBase v m

/-- The amended value: the base normalization, multiplied by sqrt(2)
when m is nonzero. -/
noncomputable def KvmAmended (v : ℝ) (m : ℤ) : ℝ :=
  if m = 0 then KvmBase v m else Real.sqrt 2 * KvmBase v m

/-- Fit.chi2objfunct: builds the reg_params dictionary that puts
10 ** alpha on the kind being searched and 0 on every other configured
kind, evaluates the coefficient vector, and returns chi^2 - nu where
chi^2 = sum((A.C - b)^2 * W). -/
def chi2objfunct {N nb : ℕ} (lib : NumLib nb) (regList : List String)
    (regMats : String → Matrix (Fin nb) (Fin nb) ℚ)
    (A : Matrix (Fin N) (Fin nb) ℚ) (b W : Fin N → ℚ)
    (nu : ℚ) (reg : String) (alpha : ℚ) : ℚ :=
  let regParams : String → ℚ := fun rl => if rl = reg then lib.pow10 alpha else 0
  let C := eval_C lib.lstsq regList regMats regParams A b W
  (∑ i, ((A *ᵥ C) i - b i) ^ 2 * W i) - nu

/-- The decade-stepping while loop of Fit.chi2:
while val0*val > 0: bracket = True; val0 = val; alpha0 = alpha;
alpha = alpha - 1; val = f(alpha); if alpha < -100: bracket = False; break.
The state is (bracket, alpha0, val0, alpha, val); the result is the
final (bracket, alpha, alpha0).  The loop decrements alpha by one per
iteration starting from 0 and aborts below -100, so it runs at most
101 iterations; the fuel argument (102 at the call site) makes the
recursion structural without changing the computed value. -/
def bracketLoop (f : ℚ → ℚ) :
    ℕ → Bool → ℚ → ℚ → ℚ → ℚ → Bool × ℚ × ℚ
  | 0, bracket, alpha0, _, alpha, _ => (bracket, alpha, alpha0)
  | fuel + 1, bracket, alpha0, val0, alpha, val =>
    if 0 < val0 * val then
      let alpha1 := alpha - 1
      let val1 := f alpha1
      if alpha1 < -100 then (false, alpha1, alpha)
      else bracketLoop f fuel true alpha val alpha1 val1
    else (bracket, alpha, alpha0)

/-- The sweep over scale factors in Fit.chi2: for each sf the target is
nu = N*sf; the objective at alpha = 0 is tested first (returning
parameter 0 when it is negative); otherwise the bracket search runs,
and on success brentq refines the root inside [alpha, alpha0] and the
returned parameter is 10 ** root; when no scale factor yields a
bracket, the ValueError from the end of Fit.chi2 is raised. -/
def chi2sfLoop (f : ℚ → ℚ → ℚ) (brentq : (ℚ → ℚ) → ℚ → ℚ → ℚ)
    (pow10 : ℚ → ℚ) (Nq : ℚ) : List ℚ → Except PyErr ℚ
  | [] => .error (.valueError
      "Could not find any roots to the objective function chi2 minus nu in the range 1e-100 to 1.")
  | sf :: rest =>
    let nu := Nq * sf
    let val := f nu 0
    if val < 0 then .ok 0
    else
      match bracketLoop (f nu) 102 false 0 1 0 val with
      | (true, alpha, alpha0) => .ok (pow10 (brentq (f nu) alpha alpha0))
      | (false, _, _) => chi2sfLoop f brentq pow10 Nq rest

/-- Fit.chi2: find the regularization parameter for kind reg by the
chi-squared method, sweeping nu over the scale factors
[0.6, 0.7, 0.8, 0.9, 1.0] times N where N = len(b). -/
def chi2 {N nb : ℕ} (lib : NumLib nb) (regList : List String)
    (regMats : String → Matrix (Fin nb) (Fin nb) ℚ)
    (A : Matrix (Fin N) (Fin nb) ℚ) (b W : Fin N → ℚ) (reg : String) :
    Except PyErr ℚ :=
  chi2sfLoop (fun nu alpha => chi2objfunct lib regList regMats A b W nu reg alpha)
    lib.brentq lib.pow10 (N : ℚ) [6/10, 7/10, 8/10, 9/10, 1]

/-- Index arithmetic of np.delete(v, i, 0) for 1-D arrays: the j-th
surviving index is j itself below i and j+1 from i onwards. -/
def skipIdx {N : ℕ} (i : Fin N) (j : Fin (N - 1)) : Fin N :=
  if h : (j : ℕ) < (i : ℕ) then ⟨j, lt_of_lt_of_le h (le_of_lt i.isLt)⟩
  else ⟨j + 1, by omega⟩

/-- Fit.gcvobjfunct: the leave-one-out cross-validation score.  For
each sample i the row i is removed from A, b and W, the coefficient
vector is fitted on the remaining samples, and the squared weighted
residual at the removed sample is accumulated. -/
def gcvobjfunct {N nb : ℕ} (lib : NumLib nb) (regList : List String)
    (regMats : String → Matrix (Fin nb) (Fin nb) ℚ)
    (A0 : Matrix (Fin N) (Fin nb) ℚ) (b0 W0 : Fin N → ℚ)
    (reg : String) (alpha : ℚ) : ℚ :=
  let regParams : String → ℚ := fun rl => if rl = reg then lib.pow10 alpha else 0
  ∑ i : Fin N,
    let A : Matrix (Fin (N - 1)) (Fin nb) ℚ := Matrix.of fun j k => A0 (skipIdx i j) k
    let b : Fin (N - 1) → ℚ := fun j => b0 (skipIdx i j)
    let W : Fin (N - 1) → ℚ := fun j => W0 (skipIdx i j)
    let C := eval_C lib.lstsq regList regMats regParams A b W
    ((∑ k, A0 i k * C k) - b0 i) ^ 2 * W0 i

/-- Fit.gcv: minimize the GCV objective over log10 of the parameter by
Nelder-Mead from the initial guess -20; raise ValueError when the
minimizer does not report success, otherwise return 10 ** solution. -/
def gcv {N nb : ℕ} (lib : NumLib nb) (regList : List String)
    (regMats : String → Matrix (Fin nb) (Fin nb) ℚ)
    (A : Matrix (Fin N) (Fin nb) ℚ) (b W : Fin N → ℚ) (reg : String) :
    Except PyErr ℚ :=
  match lib.nelderMead (gcvobjfunct lib regList regMats A b W reg) (-20) with
  | none => .error (.valueError "Minima of GCV function could not be found")
  | some x => .ok (lib.pow10 x)

/-- Fit.manual: hard-coded parameters lam = 1e-28 for the curvature
kind and kappa = 1e-23 for the 0thorder kind.  The source uses two
independent if statements and returns the local reg_param, so for any
other kind the local variable is never assigned and the return raises
UnboundLocalError.  Note the Python signature takes the seven
arguments (A, b, W, Omega, Psi, Tau, reg), not a reg_matrices
dictionary as its docstring says. -/
def manual {N nb : ℕ} (A : Matrix (Fin N) (Fin nb) ℚ) (b W : Fin N → ℚ)
    (Omega Psi : Matrix (Fin nb) (Fin nb) ℚ) (Tau : Fin nb → ℚ)
    (reg : String) : Except PyErr ℚ :=
  let lam : ℚ := 1 / 10 ^ 28
  let kappa : ℚ := 1 / 10 ^ 23
  if reg = "curvature" then .ok lam
  else if reg = "0thorder" then .ok kappa
  else .error (.unboundLocalError "local variable reg_param referenced before assignment")

/-- Fit.prompt: reads the parameter with raw_input, which does not
exist in Python 3, so the body raises NameError as soon as it runs.
Like Fit.manual it is declared with the seven positional arguments
(A, b, W, Omega, Psi, Tau, reg). -/
def prompt {N nb : ℕ} (A : Matrix (Fin N) (Fin nb) ℚ) (b W : Fin N → ℚ)
    (Omega Psi : Matrix (Fin nb) (Fin nb) ℚ) (Tau : Fin nb → ℚ)
    (reg : String) : Except PyErr ℚ :=
  .error (.nameError "name raw_input is not defined")

/-- The call reg_methods[method](A, b, W, reg_matrices, rl) inside
Fit.find_reg_param passes exactly five positional arguments.  chi2 and
gcv accept five, so their bodies run.  manual and prompt are declared
with seven parameters (A, b, W, Omega, Psi, Tau, reg), so in Python
the call itself raises TypeError for a missing argument before either
body is entered. -/
def callStrategy {N nb : ℕ} (lib : NumLib nb) (regList : List String)
    (regMats : String → Matrix (Fin nb) (Fin nb) ℚ)
    (A : Matrix (Fin N) (Fin nb) ℚ) (b W : Fin N → ℚ)
    (method : RegMethod) (reg : String) : Except PyErr ℚ :=
  match method with
  | .chi2m => chi2 lib regList regMats A b W reg
  | .gcvm => gcv lib regList regMats A b W reg
  | .manualm => .error (.typeError
      "manual missing 2 required positional arguments: Tau and reg")
  | .promptm => .error (.typeError
      "prompt missing 2 required positional arguments: Tau and reg")

/-- The loop of Fit.find_reg_param over the kinds still to process.
The full configured regularization_list is passed separately because
the strategies themselves iterate over it when building their
reg_params dictionaries.  A ValueError from a strategy is caught,
logged and replaced by NaN; any other exception propagates. -/
def findRegParamLoop {N nb : ℕ} (lib : NumLib nb) (regList : List String)
    (regMats : String → Matrix (Fin nb) (Fin nb) ℚ)
    (A : Matrix (Fin N) (Fin nb) ℚ) (b W : Fin N → ℚ)
    (method : RegMethod) : List String → Except PyErr (List (String × RVal))
  | [] => .ok []
  | rl :: rest => do
    let v : RVal ← match callStrategy lib regList regMats A b W method rl with
      | .ok q => Except.ok (RVal.val q)
      | .error (.valueError _) => Except.ok RVal.nan
      | .error e => Except.error e
    let ps ← findRegParamLoop lib regList regMats A b W method rest
    return (rl, v) :: ps

/-- Fit.find_reg_param: invoke the selected strategy once per
configured regularization kind, catching ValueError per kind and
substituting NaN for that kind. -/
def find_reg_param {N nb : ℕ} (lib : NumLib nb) (regList : List String)
    (A : Matrix (Fin N) (Fin nb) ℚ) (b W : Fin N → ℚ)
    (regMats : String → Matrix (Fin nb) (Fin nb) ℚ)
    (method : RegMethod) : Except PyErr (List (String × RVal)) :=
  findRegParamLoop lib regList regMats A b W method regList

/-- One time record of the session: a start/end timestamp pair (Unix
seconds) together with the per-point sample values and errors for this
record.  The shared coordinate grid lives outside the record, as in
Fit.fit where lat, lon, alt are read once per session. -/
structure FitRecord where
  time : ℤ × ℤ
  values : List RVal
  errors : List ℚ
  deriving DecidableEq, Repr

/-- One slot of the per-record result arrays built by Fit.fit: the
coefficient vector, the covariance matrix and the chi-squared value. -/
structure FitSlot where
  coeffs : List RVal
  cov : List (List RVal)
  chisq : RVal
  deriving DecidableEq, Repr

/-- The disqualified-record slot appended by Fit.fit:
np.full(nbasis, nan), np.full((nbasis, nbasis), nan) and nan. -/
def nanSlot (nb : ℕ) : FitSlot :=
  { coeffs := List.replicate nb RVal.nan
    cov := List.replicate nb (List.replicate nb RVal.nan)
    chisq := RVal.nan }

/-- The sample filter at the top of the record loop in Fit.fit: keep
the (coordinate, value, error) triples whose value is finite
(lat0 = lat[isfinite(ne0)] and so on). -/
def keptSamples (coords : List (ℚ × ℚ × ℚ)) (r : FitRecord) :
    List ((ℚ × ℚ × ℚ) × RVal × ℚ) :=
  (coords.zip (r.values.zip r.errors)).filter fun s => s.2.1.isFinite

/-- W = np.array(er0 ** (-2)) for the surviving samples of a record. -/
def recordW (coords : List (ℚ × ℚ × ℚ)) (r : FitRecord) :
    Fin (keptSamples coords r).length → ℚ :=
  fun i => (((keptSamples coords r).get i).2.2)⁻¹ ^ 2

/-- b = ne0 for the surviving samples of a record. -/
def recordB (coords : List (ℚ × ℚ × ℚ)) (r : FitRecord) :
    Fin (keptSamples coords r).length → ℚ :=
  fun i => ((keptSamples coords r).get i).2.1.toQ

/-- A = self.model.basis(lat0, lon0, alt0) for the surviving samples.
The basis collaborator is abstract: basisRow c is the row of basis
function values at the coordinate triple c.  Modelled from the spec:
the model class selected by the MODEL config entry is not part of the
sources; its contract (BasisModel, one row per sample and one column
per basis function, depending only on the coordinates) is all that is
used here. -/
def recordA {nb : ℕ} (basisRow : (ℚ × ℚ × ℚ) → Fin nb → ℚ)
    (coords : List (ℚ × ℚ × ℚ)) (r : FitRecord) :
    Matrix (Fin (keptSamples coords r).length) (Fin nb) ℚ :=
  Matrix.of fun i j => basisRow ((keptSamples coords r).get i).1 j

/-- The body of the record loop in Fit.fit: filter the samples, build
A, b, W, search the regularization parameters, and either append the
all-NaN slot (when any searched parameter is NaN) or solve for the
coefficients, covariance and chi-squared.  An exception escaping
find_reg_param aborts the whole fit call. -/
def recordStep {nb : ℕ} (lib : NumLib nb)
    (basisRow : (ℚ × ℚ × ℚ) → Fin nb → ℚ) (regList : List String)
    (regMats : String → Matrix (Fin nb) (Fin nb) ℚ) (method : RegMethod)
    (coords : List (ℚ × ℚ × ℚ)) (r : FitRecord) : Except PyErr FitSlot := do
  let A := recordA basisRow coords r
  let b := recordB coords r
  let W := recordW coords r
  let ps ← find_reg_param lib regList A b W regMats method
  if ps.any fun p => p.2.isNaN then
    return nanSlot nb
  else
    let regParams : String → ℚ := fun k => ((ps.lookup k).getD RVal.nan).toQ
    let CdC := eval_C_cov lib.lstsq lib.pinv regList regMats regParams A b W
    return { coeffs := List.ofFn fun j => RVal.val (CdC.1 j)
             cov := List.ofFn fun j => List.ofFn fun k => RVal.val (CdC.2 j k)
             chisq := RVal.val (∑ i, ((A *ᵥ CdC.1) i - b i) ^ 2 * W i) }

/-- The record loop of Fit.fit: process the records in order, one slot
appended per record; an exception from a record propagates out of the
loop (and of Fit.fit). -/
def fitLoop {nb : ℕ} (lib : NumLib nb)
    (basisRow : (ℚ × ℚ × ℚ) → Fin nb → ℚ) (regList : List String)
    (regMats : String → Matrix (Fin nb) (Fin nb) ℚ) (method : RegMethod)
    (coords : List (ℚ × ℚ × ℚ)) : List FitRecord → Except PyErr (List FitSlot)
  | [] => .ok []
  | r :: rs => do
    let s ← recordStep lib basisRow regList regMats method coords r
    let ss ← fitLoop lib basisRow regList regMats method coords rs
    return s :: ss

/-- Insertion of a rational into a sorted list (helper for the sort
underlying the median computation). -/
def insertSortedQ (x : ℚ) : List ℚ → List ℚ
  | [] => [x]
  | y :: ys => if x ≤ y then x :: y :: ys else y :: insertSortedQ x ys

/-- Insertion sort of a list of rationals (ascending). -/
def sortQ : List ℚ → List ℚ
  | [] => []
  | x :: xs => insertSortedQ x (sortQ xs)

/-- np.nanmedian over a float array: the median of the non-NaN
entries, interpolated as the mean of the two middle order statistics
for an even count, and NaN when no finite entry exists. -/
def nanmedianR (vals : List RVal) : RVal :=
  let xs := sortQ (vals.filterMap RVal.toOption)
  let n := xs.length
  if n = 0 then .nan
  else if n % 2 = 1 then .val (xs.getD (n / 2) 0)
  else .val ((xs.getD (n / 2 - 1) 0 + xs.getD (n / 2) 0) / 2)

/-- One column of the data_check array in Fit.get_data for a single
sample: error within (errlim[0], errlim[1]), chi-squared within
(chi2lim[0], chi2lim[1]) and fitcode among the good fit codes.  The
numpy comparisons are False on NaN, so a NaN error or chi-squared
flags the sample as bad. -/
def goodSample (errlim chi2lim : ℚ × ℚ) (goodfitcode : List ℤ)
    (err c2 : RVal) (fc : ℤ) : Bool :=
  RVal.qlt errlim.1 err && RVal.ltq err errlim.2 &&
    RVal.qlt chi2lim.1 c2 && RVal.ltq c2 chi2lim.2 && decide (fc ∈ goodfitcode)

/-- The quality screen of Fit.get_data on the flattened per-sample
arrays (error, chi-squared, fitcode): first the chi-squared
correction - when the NaN-ignoring median of the chi-squared values
exceeds 100, subtract 369 from every chi-squared value - then the
data_check conjunction per sample.  The returned booleans are true for
samples that survive (value and error are set to NaN for the rest). -/
def getDataScreen (errlim chi2lim : ℚ × ℚ) (goodfitcode : List ℤ)
    (samples : List (RVal × RVal × ℤ)) : List Bool :=
  let errs := samples.map fun s => s.1
  let chi2s := samples.map fun s => s.2.1
  let fcs := samples.map fun s => s.2.2
  let chi2adj := if RVal.qlt 100 (nanmedianR chi2s) then chi2s.map (fun v => v.sub 369)
    else chi2s
  (errs.zip (chi2adj.zip fcs)).map fun s =>
    goodSample errlim chi2lim goodfitcode s.1 s.2.1 s.2.2

/-- A concrete least-squares solver for 1-by-1 systems, used to
instantiate the abstract lstsq oracle on concrete inputs: divide when
the matrix entry is nonzero, return 0 (the minimum-norm least-squares
solution) otherwise. -/
def lstsq1 : Matrix (Fin 1) (Fin 1) ℚ → (Fin 1 → ℚ) → Fin 1 → ℚ :=
  fun X y _ => if X 0 0 = 0 then 0 else y 0 / X 0 0

/-- A concrete instantiation of the numeric oracle bundle for
nbasis = 1, used to evaluate the embedded code on concrete inputs. -/
def lib1 : NumLib 1 where
  pow10 := fun _ => 1
  brentq := fun _ a _ => a
  nelderMead := fun _ _ => none
  lstsq := lstsq1
  pinv := fun X => X

/-- Concrete regularization matrices for nbasis = 1: every kind maps
to the 1-by-1 matrix with entry 1. -/
def mats1 : String → Matrix (Fin 1) (Fin 1) ℚ := fun _ => Matrix.of fun _ _ => 1

/-- Concrete 1-by-1 design matrix with entry 1. -/
def A1 : Matrix (Fin 1) (Fin 1) ℚ := Matrix.of fun _ _ => 1

/-- Concrete one-sample data vector with entry 1. -/
def b1 : Fin 1 → ℚ := fun _ => 1

/-- Concrete one-sample weight vector with entry 1. -/
def W1 : Fin 1 → ℚ := fun _ => 1

/-- Concrete all-zero regularization parameter assignment. -/
def prm0 : String → ℚ := fun _ => 0

/-- Concrete one-point coordinate grid. -/
def coords1 : List (ℚ × ℚ × ℚ) := [(0, 0, 0)]

/-- Concrete basis collaborator for nbasis = 1: constant value 1. -/
def basisRow1 : (ℚ × ℚ × ℚ) → Fin 1 → ℚ := fun _ _ => 1

/-- Concrete record whose only sample value is NaN. -/
def recNaN : FitRecord := { time := (0, 0), values := [RVal.nan], errors := [1] }

/-- Claim C6: for every basis index n with 0 <= n < maxk*maxl^2, the
triple (k, l, m) = basis_numbers(n) satisfies k*maxl^2 + l*(l+1) + m = n,
with 0 <= k < maxk (k is a natural number), 0 <= l < maxl, and
-l <= m <= l. -/
theorem c6_basis_numbers_bijection (maxk maxl n : ℕ) (h : n < maxk * maxl ^ 2) :
    ((basis_numbers maxl n).1 : ℤ) * (maxl : ℤ) ^ 2 +
        ((basis_numbers maxl n).2.1 : ℤ) * ((basis_numbers maxl n).2.1 + 1) +
        (basis_numbers maxl n).2.2 = n ∧
      (basis_numbers maxl n).1 < maxk ∧
      (basis_numbers maxl n).2.1 < maxl ∧
      -((basis_numbers maxl n).2.1 : ℤ) ≤ (basis_numbers maxl n).2.2 ∧
      (basis_numbers maxl n).2.2 ≤ ((basis_numbers maxl n).2.1 : ℤ) := by
  have e1 : (basis_numbers maxl n).1 = n / maxl ^ 2 := rfl
  have e2 : (basis_numbers maxl n).2.1 = Nat.sqrt (n % maxl ^ 2) := rfl
  have e3 : (basis_numbers maxl n).2.2 =
      ((n % maxl ^ 2 : ℕ) : ℤ) -
        (Nat.sqrt (n % maxl ^ 2) : ℤ) * ((Nat.sqrt (n % maxl ^ 2) : ℤ) + 1) := rfl
  have hml : 0 < maxl ^ 2 := by
    rcases Nat.eq_zero_or_pos (maxl ^ 2) with h0 | h0
    · rw [h0, Nat.mul_zero] at h; omega
    · exact h0
  have h1 : Nat.sqrt (n % maxl ^ 2) * Nat.sqrt (n % maxl ^ 2) ≤ n % maxl ^ 2 :=
    Nat.sqrt_le (n % maxl ^ 2)
  have h2 : n % maxl ^ 2 <
      (Nat.sqrt (n % maxl ^ 2) + 1) * (Nat.sqrt (n % maxl ^ 2) + 1) :=
    Nat.lt_succ_sqrt (n % maxl ^ 2)
  have h3 : n % maxl ^ 2 < maxl ^ 2 := Nat.mod_lt n hml
  have h4 : Nat.sqrt (n % maxl ^ 2) < maxl := Nat.sqrt_lt'.mpr h3
  have h5 : n / maxl ^ 2 < maxk :=
    Nat.div_lt_of_lt_mul (Nat.mul_comm maxk (maxl ^ 2) ▸ h)
  have h6 : maxl ^ 2 * (n / maxl ^ 2) + n % maxl ^ 2 = n := Nat.div_add_mod n (maxl ^ 2)
  have h6z : ((maxl : ℤ) ^ 2) * ((n / maxl ^ 2 : ℕ) : ℤ) + ((n % maxl ^ 2 : ℕ) : ℤ) = n := by
    exact_mod_cast h6
  have h1z : ((Nat.sqrt (n % maxl ^ 2) : ℤ)) * (Nat.sqrt (n % maxl ^ 2) : ℤ) ≤
      ((n % maxl ^ 2 : ℕ) : ℤ) := by exact_mod_cast h1
  have h2z : ((n % maxl ^ 2 : ℕ) : ℤ) <
      ((Nat.sqrt (n % maxl ^ 2) : ℤ) + 1) * ((Nat.sqrt (n % maxl ^ 2) : ℤ) + 1) := by
    exact_mod_cast h2
  refine ⟨?_, by rw [e1]; exact h5, by rw [e2]; exact h4, ?_, ?_⟩
  · rw [e1, e2, e3]; linarith [h6z]
  · rw [e2, e3]; nlinarith [h1z]
  · rw [e2, e3]; nlinarith [h2z]

/-- Witness for C6 at maxk = 2, maxl = 3, n = 7: the decomposition is
(k, l, m) = (0, 2, 1) and all the asserted bounds hold. -/
theorem c6_basis_numbers_witness :
    ((basis_numbers 3 7).1 : ℤ) * (3 : ℤ) ^ 2 +
        ((basis_numbers 3 7).2.1 : ℤ) * ((basis_numbers 3 7).2.1 + 1) +
        (basis_numbers 3 7).2.2 = 7 ∧
      (basis_numbers 3 7).1 < 2 ∧
      (basis_numbers 3 7).2.1 < 3 ∧
      -((basis_numbers 3 7).2.1 : ℤ) ≤ (basis_numbers 3 7).2.2 ∧
      (basis_numbers 3 7).2.2 ≤ ((basis_numbers 3 7).2.1 : ℤ) :=
  c6_basis_numbers_bijection 2 3 7 (by decide)

/-- Helper: mapping a three-place function over the zip of three maps
of the same list is a single map over that list. -/
theorem zip3_map_map {α β γ δ ε : Type} (f : α → β) (g : α → γ) (h : α → δ)
    (F : β → γ → δ → ε) (l : List α) :
    ((l.map f).zip ((l.map g).zip (l.map h))).map (fun s => F s.1 s.2.1 s.2.2) =
      l.map fun a => F (f a) (g a) (h a) := by
  induction l with
  | nil => rfl
  | cons x xs ih => simp only [List.map_cons, List.zip_cons_cons, ih]

/-- Claim C10: in the quality screen of get_data, when the NaN-ignoring
median of the chi-squared values exceeds 100, each sample is judged
against its chi-squared value minus 369; otherwise against the
unchanged value.  Stated as a single equation covering both branches. -/
theorem c10_chi2_median_correction (errlim chi2lim : ℚ × ℚ) (goodfitcode : List ℤ)
    (samples : List (RVal × RVal × ℤ)) :
    getDataScreen errlim chi2lim goodfitcode samples =
      samples.map fun s =>
        goodSample errlim chi2lim goodfitcode s.1
          (if RVal.qlt 100 (nanmedianR (samples.map fun x => x.2.1))
            then s.2.1.sub 369 else s.2.1)
          s.2.2 := by
  unfold getDataScreen
  by_cases hc : RVal.qlt 100 (nanmedianR (samples.map fun x => x.2.1)) = true
  · simp only [hc, if_true, List.map_map]
    exact zip3_map_map (fun s => s.1) (fun s => RVal.sub s.2.1 369) (fun s => s.2.2)
      (fun a b c => goodSample errlim chi2lim goodfitcode a b c) samples
  · simp only [hc, if_false, Bool.false_eq_true]
    exact zip3_map_map (fun s => s.1) (fun s => s.2.1) (fun s => s.2.2)
      (fun a b c => goodSample errlim chi2lim goodfitcode a b c) samples

/-- Helper: the accumulation loop over the regularization list equals
the closed-form sum of the scaled regularization matrices. -/
theorem regX_eq_sum {N nb : ℕ} (regList : List String)
    (regMats : String → Matrix (Fin nb) (Fin nb) ℚ) (regParams : String → ℚ)
    (A : Matrix (Fin N) (Fin nb) ℚ) (W : Fin N → ℚ) :
    regX regList regMats regParams A W =
      AWA A W + (regList.map fun reg => regParams reg • regMats reg).sum := by
  unfold regX
  generalize AWA A W = acc
  induction regList generalizing acc with
  | nil => simp
  | cons x xs ih =>
    simp only [List.foldl_cons, List.map_cons, List.sum_cons, ih, add_assoc]

/-- Claim C4: the covariance returned by eval_C with calccov=True is
the sandwich H (A^T W A) H^T where H is the pseudo-inverse of the same
regularized matrix X = A^T W A + sum of regParams[kind]*regMatrices[kind]
that was used to solve for the coefficients. -/
theorem c4_covariance_sandwich {N nb : ℕ}
    (lstsq : Matrix (Fin nb) (Fin nb) ℚ → (Fin nb → ℚ) → Fin nb → ℚ)
    (pinv : Matrix (Fin nb) (Fin nb) ℚ → Matrix (Fin nb) (Fin nb) ℚ)
    (regList : List String) (regMats : String → Matrix (Fin nb) (Fin nb) ℚ)
    (regParams : String → ℚ) (A : Matrix (Fin N) (Fin nb) ℚ) (b W : Fin N → ℚ) :
    (eval_C_cov lstsq pinv regList regMats regParams A b W).2 =
      specCovariance pinv regList regMats regParams A W := by
  simp only [eval_C_cov, specCovariance, regX_eq_sum, Matrix.mul_assoc]

/-- Claim C9: eval_C (both the coefficient vector and, with
calccov=True, the covariance matrix) is invariant under a simultaneous
permutation of the rows of A and the entries of b and W. -/
theorem c9_row_permutation_invariance {N nb : ℕ}
    (lstsq : Matrix (Fin nb) (Fin nb) ℚ → (Fin nb → ℚ) → Fin nb → ℚ)
    (pinv : Matrix (Fin nb) (Fin nb) ℚ → Matrix (Fin nb) (Fin nb) ℚ)
    (regList : List String) (regMats : String → Matrix (Fin nb) (Fin nb) ℚ)
    (regParams : String → ℚ) (A : Matrix (Fin N) (Fin nb) ℚ) (b W : Fin N → ℚ)
    (sigma : Equiv.Perm (Fin N)) :
    eval_C lstsq regList regMats regParams (permRows sigma A)
        (fun i => b (sigma i)) (fun i => W (sigma i)) =
      eval_C lstsq regList regMats regParams A b W ∧
    eval_C_cov lstsq pinv regList regMats regParams (permRows sigma A)
        (fun i => b (sigma i)) (fun i => W (sigma i)) =
      eval_C_cov lstsq pinv regList regMats regParams A b W := by
  have hAWA : AWA (permRows sigma A) (fun i => W (sigma i)) = AWA A W := by
    ext i j
    simp only [AWA, Matrix.mul_apply, rowScale, permRows, Matrix.of_apply,
      Matrix.transpose_apply]
    exact Equiv.sum_comp sigma fun k => A k i * (W k * A k j)
  have hy : normalRHS (permRows sigma A) (fun i => W (sigma i))
      (fun i => b (sigma i)) = normalRHS A W b := by
    funext j
    simp only [normalRHS, Matrix.mulVec, dotProduct, Matrix.transpose_apply,
      permRows, Matrix.of_apply]
    exact Equiv.sum_comp sigma fun i => A i j * (W i * b i)
  constructor
  · unfold eval_C regX
    rw [hAWA, hy]
  · unfold eval_C_cov regX
    rw [hAWA, hy]

/-- Helper: the base normalization KvmBase is strictly positive at
v = 1/2, m = 1, because every factor of the argument of the square
root is strictly positive there. -/
theorem KvmBase_half_one_pos : 0 < KvmBase (1 / 2) 1 := by
  unfold KvmBase
  apply Real.sqrt_pos.mpr
  have e1 : (1 : ℝ) / 2 - ((1 : ℤ) : ℝ) + 1 = 1 / 2 := by push_cast; ring
  have e2 : (1 : ℝ) / 2 + ((1 : ℤ) : ℝ) + 1 = 5 / 2 := by push_cast; ring
  rw [e1, e2]
  have hg1 : 0 < Real.Gamma (1 / 2) := Real.Gamma_pos_of_pos (by norm_num)
  have hg2 : 0 < Real.Gamma (5 / 2) := Real.Gamma_pos_of_pos (by norm_num)
  have hpi : 0 < 4 * Real.pi := by positivity
  have hnum : (0 : ℝ) < 2 * (1 / 2) + 1 := by norm_num
  exact div_pos (mul_pos (div_pos hnum hpi) hg1) hg2

/-- Counterexample for claim C5: at the non-integer degree v = 1/2 and
order m = 1, the value computed by Model.Kvm (base times sqrt(2)) is
not the doubled base value asserted by the claim. -/
theorem c5_kvm_doubling_counterexample : Kvm (1 / 2) 1 ≠ KvmClaimed (1 / 2) 1 := by
  intro heq
  have hB : 0 < KvmBase (1 / 2) 1 := KvmBase_half_one_pos
  unfold Kvm KvmClaimed at heq
  simp only [ne_eq, one_ne_zero, not_false_eq_true, if_true, if_false, ite_true,
    ite_false, reduceIte] at heq
  have hsqrt : Real.sqrt 2 = 2 := by
    have h2 : KvmBase (1 / 2) 1 * Real.sqrt 2 = KvmBase (1 / 2) 1 * 2 := by
      rw [heq]; ring
    exact mul_left_cancel₀ (ne_of_gt hB) h2
  have h4 : (2 : ℝ) = 4 := by
    have := Real.sq_sqrt (by norm_num : (0 : ℝ) ≤ 2)
    rw [hsqrt] at this
    norm_num at this
  norm_num at h4

/-- Claim C5 as amended: Kvm(v, m) equals the base normalization
sqrt((2v+1)/(4 pi) Gamma(v-m+1)/Gamma(v+m+1)) when m = 0, and sqrt(2)
times that value (not double) when m is nonzero. -/
theorem c5_kvm_sqrt2_amended (v : ℝ) (m : ℤ) : Kvm v m = KvmAmended v m := by
  unfold Kvm KvmAmended
  by_cases h : m = 0
  · simp [h]
  · simp [h, mul_comm]

/-- Helper: the weighted normal matrix A^T W A is symmetric. -/
theorem AWA_transpose {N nb : ℕ} (A : Matrix (Fin N) (Fin nb) ℚ) (W : Fin N → ℚ) :
    (AWA A W)ᵀ = AWA A W := by
  ext i j
  simp only [AWA, Matrix.transpose_apply, Matrix.mul_apply, rowScale, Matrix.of_apply]
  exact Finset.sum_congr rfl fun k _ => by ring

/-- Helper: applying A^T W A to a vector factors through the weighted
image of the vector under A. -/
theorem AWA_mulVec {N nb : ℕ} (A : Matrix (Fin N) (Fin nb) ℚ) (W : Fin N → ℚ)
    (v : Fin nb → ℚ) :
    AWA A W *ᵥ v = Aᵀ *ᵥ fun i => W i * (A *ᵥ v) i := by
  unfold AWA
  rw [← Matrix.mulVec_mulVec]
  funext i
  simp only [rowScale, Matrix.mulVec, dotProduct, Matrix.of_apply, Finset.mul_sum]
  exact Finset.sum_congr rfl fun j _ => Finset.sum_congr rfl fun x _ => by ring

/-- Helper: the quadratic-form expansion of u . (A^T W A v). -/
theorem dot_AWA_mulVec {N nb : ℕ} (A : Matrix (Fin N) (Fin nb) ℚ) (W : Fin N → ℚ)
    (u v : Fin nb → ℚ) :
    u ⬝ᵥ (AWA A W *ᵥ v) = ∑ i, (A *ᵥ u) i * (W i * (A *ᵥ v) i) := by
  rw [AWA_mulVec, Matrix.dotProduct_mulVec, Matrix.vecMul_transpose]
  rfl

/-- Helper: a vector in the kernel of A^T W A has, for nonnegative
weights, W i * (A v) i = 0 for every sample i. -/
theorem AWA_kernel_terms {N nb : ℕ} (A : Matrix (Fin N) (Fin nb) ℚ) (W : Fin N → ℚ)
    (hW : ∀ i, 0 ≤ W i) (v : Fin nb → ℚ) (hv : AWA A W *ᵥ v = 0) :
    ∀ i, W i * (A *ᵥ v) i = 0 := by
  have h0 : ∑ i, (A *ᵥ v) i * (W i * (A *ᵥ v) i) = 0 := by
    rw [← dot_AWA_mulVec A W v v, hv, Matrix.dotProduct_zero]
  have h1 : ∑ i, W i * (A *ᵥ v) i ^ 2 = 0 := by
    rw [← h0]
    exact Finset.sum_congr rfl fun i _ => by ring
  have h2 : ∀ i ∈ Finset.univ, (0 : ℚ) ≤ W i * (A *ᵥ v) i ^ 2 :=
    fun i _ => mul_nonneg (hW i) (sq_nonneg _)
  intro i
  have h3 := (Finset.sum_eq_zero_iff_of_nonneg h2).mp h1 i (Finset.mem_univ i)
  rcases mul_eq_zero.mp h3 with h | h
  · rw [h, zero_mul]
  · rw [pow_eq_zero_iff (two_ne_zero) |>.mp h, mul_zero]

/-- Claim C3: when every configured regularization parameter is 0 and
the weights are nonnegative, the coefficient vector returned by eval_C
(for any solver satisfying the least-squares characterization of
scipy lstsq) solves the weighted normal equations
(A^T W A) C = A^T W b exactly. -/
theorem c3_zero_reg_weighted_least_squares {N nb : ℕ}
    (lstsq : Matrix (Fin nb) (Fin nb) ℚ → (Fin nb → ℚ) → Fin nb → ℚ)
    (regList : List String) (regMats : String → Matrix (Fin nb) (Fin nb) ℚ)
    (regParams : String → ℚ) (A : Matrix (Fin N) (Fin nb) ℚ) (b W : Fin N → ℚ)
    (hsolver : ∀ X y, lstsqSpec X y (lstsq X y))
    (hW : ∀ i, 0 ≤ W i)
    (hzero : ∀ k ∈ regList, regParams k = 0) :
    AWA A W *ᵥ eval_C lstsq regList regMats regParams A b W = normalRHS A W b := by
  have hXE : regX regList regMats regParams A W = AWA A W := by
    rw [regX_eq_sum]
    have hz : (regList.map fun reg => regParams reg • regMats reg).sum = 0 := by
      apply List.sum_eq_zero
      intro x hx
      obtain ⟨k, hk, rfl⟩ := List.mem_map.mp hx
      rw [hzero k hk, zero_smul]
    rw [hz, add_zero]
  have hCE : eval_C lstsq regList regMats regParams A b W =
      lstsq (AWA A W) (normalRHS A W b) := by
    unfold eval_C
    rw [hXE]
  rw [hCE]
  have hnorm := hsolver (AWA A W) (normalRHS A W b)
  unfold lstsqSpec at hnorm
  rw [AWA_transpose A W] at hnorm
  set C := lstsq (AWA A W) (normalRHS A W b) with hC
  set y := normalRHS A W b with hydef
  set d : Fin nb → ℚ := AWA A W *ᵥ C - y with hd
  have hXd : AWA A W *ᵥ d = 0 := by
    rw [hd, Matrix.mulVec_sub, Matrix.mulVec_mulVec, hnorm, sub_self]
  have hterm := AWA_kernel_terms A W hW d hXd
  have hdy : d ⬝ᵥ y = 0 := by
    rw [hydef]
    unfold normalRHS
    rw [Matrix.dotProduct_mulVec, Matrix.vecMul_transpose]
    apply Finset.sum_eq_zero
    intro i _
    calc (A *ᵥ d) i * (W i * b i) = W i * (A *ᵥ d) i * b i := by ring
    _ = 0 := by rw [hterm i, zero_mul]
  have hdX : d ⬝ᵥ (AWA A W *ᵥ C) = 0 := by
    rw [Matrix.dotProduct_mulVec]
    have hvm : d ᵥ* AWA A W = 0 := by
      have h5 : d ᵥ* (AWA A W)ᵀ = AWA A W *ᵥ d := Matrix.vecMul_transpose (AWA A W) d
      rw [AWA_transpose A W] at h5
      rw [h5, hXd]
    rw [hvm, Matrix.zero_dotProduct]
  have hdd : d ⬝ᵥ d = 0 := by
    calc d ⬝ᵥ d = d ⬝ᵥ (AWA A W *ᵥ C - y) := by rw [← hd]
    _ = d ⬝ᵥ (AWA A W *ᵥ C) - d ⬝ᵥ y := Matrix.dotProduct_sub d _ _
    _ = 0 := by rw [hdX, hdy, sub_zero]
  have hdz : d = 0 := by
    funext i
    have h2 : ∀ j ∈ Finset.univ, (0 : ℚ) ≤ d j * d j := fun j _ => mul_self_nonneg _
    have h4 := (Finset.sum_eq_zero_iff_of_nonneg h2).mp hdd i (Finset.mem_univ i)
    exact mul_self_eq_zero.mp h4
  have hfinal : AWA A W *ᵥ C - y = 0 := by rw [← hd]; exact hdz
  exact sub_eq_zero.mp hfinal

/-- Helper: the concrete 1-by-1 solver lstsq1 satisfies the
least-squares characterization for every input system. -/
theorem lstsq1_sound : ∀ (X : Matrix (Fin 1) (Fin 1) ℚ) (y : Fin 1 → ℚ),
    lstsqSpec X y (lstsq1 X y) := by
  intro X y
  unfold lstsqSpec lstsq1
  funext i
  fin_cases i
  by_cases h : X 0 0 = 0
  · simp [Matrix.mulVec, dotProduct, Matrix.mul_apply, Matrix.transpose_apply,
      Fin.sum_univ_one, h]
  · simp only [Matrix.mulVec, dotProduct, Matrix.mul_apply, Matrix.transpose_apply,
      Fin.sum_univ_one, if_neg h]
    field_simp
    ring

/-- Witness for C3 at the concrete one-sample one-basis instance: the
solver lstsq1 satisfies the solver specification everywhere, the
weights are nonnegative, the parameter assignment prm0 vanishes on the
configured kind list, and the conclusion of the theorem holds. -/
theorem c3_zero_reg_witness :
    AWA A1 W1 *ᵥ eval_C lstsq1 ["curvature"] mats1 prm0 A1 b1 W1 =
      normalRHS A1 W1 b1 :=
  c3_zero_reg_weighted_least_squares lstsq1 ["curvature"] mats1 prm0 A1 b1 W1
    lstsq1_sound (fun i => by norm_num [W1]) (fun k _ => rfl)

/-- Claim C8: when the chi2 objective at alpha = 0 is already negative
for the first swept target nu = 0.6 * N, the chi2 strategy returns the
regularization parameter exactly 0.  The conclusion holds for every
behaviour of the abstract brentq root refiner and of pow10, so neither
decade-stepping nor root refinement contributes to the result. -/
theorem c8_chi2_early_return_zero {N nb : ℕ} (lib : NumLib nb)
    (regList : List String) (regMats : String → Matrix (Fin nb) (Fin nb) ℚ)
    (A : Matrix (Fin N) (Fin nb) ℚ) (b W : Fin N → ℚ) (reg : String)
    (h : chi2objfunct lib regList regMats A b W ((N : ℚ) * (6 / 10)) reg 0 < 0) :
    chi2 lib regList regMats A b W reg = .ok 0 := by
  unfold chi2 chi2sfLoop
  rw [if_pos h]

/-- Witness for C8 at the concrete one-sample instance: with A = (1),
b = (1), W = (1), regularization matrix (1) and pow10 constantly 1,
the objective at alpha = 0 is 1/4 - 3/5 < 0 and the strategy returns
the parameter 0. -/
theorem c8_chi2_early_return_witness :
    chi2 lib1 ["curvature"] mats1 A1 b1 W1 "curvature" = .ok 0 :=
  c8_chi2_early_return_zero lib1 ["curvature"] mats1 A1 b1 W1 "curvature" (by
    norm_num [chi2objfunct, eval_C, regX, AWA, normalRHS, rowScale, lib1, lstsq1,
      mats1, A1, b1, W1, Matrix.mulVec, dotProduct, Matrix.mul_apply, Fin.sum_univ_one])

/-- Claim C1 evaluation: dispatching find_reg_param to the manual or
prompt strategy raises TypeError (the call passes the five arguments
A, b, W, reg_matrices, reg, while those strategies are declared with
the seven parameters A, b, W, Omega, Psi, Tau, reg), and the except
ValueError handler does not catch it, so the exception escapes
find_reg_param instead of being logged and replaced by NaN. -/
theorem c1_manual_prompt_typeerror_escapes :
    find_reg_param lib1 ["curvature"] A1 b1 W1 mats1 RegMethod.manualm =
      .error (.typeError "manual missing 2 required positional arguments: Tau and reg") ∧
    find_reg_param lib1 ["curvature"] A1 b1 W1 mats1 RegMethod.promptm =
      .error (.typeError "prompt missing 2 required positional arguments: Tau and reg") :=
  ⟨rfl, rfl⟩

/-- Helper: bind on a successful Except value reduces to the
continuation. -/
theorem except_ok_bind {ε α β : Type} (a : α) (f : α → Except ε β) :
    (Except.ok a >>= f : Except ε β) = f a := rfl

/-- Helper: bind on a failed Except value short-circuits. -/
theorem except_error_bind {ε α β : Type} (e : ε) (f : α → Except ε β) :
    (Except.error e >>= f : Except ε β) = Except.error e := rfl

/-- Helper: the bracket-search loop exits immediately, with the
bracket flag it was handed, when the incoming objective value is 0
(the while condition val0 * val > 0 fails). -/
theorem bracketLoop_val_zero (f : ℚ → ℚ) (fuel : ℕ) (br : Bool) (a0 v0 a : ℚ) :
    bracketLoop f (fuel + 1) br a0 v0 a 0 = (br, a, a0) := by
  unfold bracketLoop
  norm_num

/-- Helper: when the objective at alpha = 0 evaluates to exactly 0 for
every swept target, no scale factor triggers the early return and none
produces a bracket (the while loop never runs, leaving the bracket
flag False), so the sweep ends in the ValueError of Fit.chi2. -/
theorem chi2sfLoop_no_bracket (f : ℚ → ℚ → ℚ) (brentq : (ℚ → ℚ) → ℚ → ℚ → ℚ)
    (pow10 : ℚ → ℚ) (Nq : ℚ) (sfs : List ℚ)
    (h : ∀ sf ∈ sfs, f (Nq * sf) 0 = 0) :
    chi2sfLoop f brentq pow10 Nq sfs = .error (.valueError
      "Could not find any roots to the objective function chi2 minus nu in the range 1e-100 to 1.") := by
  induction sfs with
  | nil => rfl
  | cons sf rest ih =>
    have h0 : f (Nq * sf) 0 = 0 := h sf (List.mem_cons_self sf rest)
    have hrest : ∀ s ∈ rest, f (Nq * s) 0 = 0 := fun s hs => h s (List.mem_cons_of_mem sf hs)
    have hb : bracketLoop (f (Nq * sf)) 102 false 0 1 0 0 = (false, 0, 0) :=
      bracketLoop_val_zero (f (Nq * sf)) 101 false 0 1 0
    simp only [chi2sfLoop, h0]
    rw [if_neg (by norm_num), hb]
    exact ih hrest

/-- Helper: with an empty sample set (N = 0) the chi2 strategy always
fails with the no-roots ValueError: every objective value is the empty
sum minus nu, nu is N * sf = 0, so the objective at alpha = 0 is 0 and
no bracket ever forms. -/
theorem chi2_empty {N nb : ℕ} (lib : NumLib nb) (regList : List String)
    (regMats : String → Matrix (Fin nb) (Fin nb) ℚ)
    (A : Matrix (Fin N) (Fin nb) ℚ) (b W : Fin N → ℚ) (reg : String)
    (hN : N = 0) :
    chi2 lib regList regMats A b W reg = .error (.valueError
      "Could not find any roots to the objective function chi2 minus nu in the range 1e-100 to 1.") := by
  subst hN
  unfold chi2
  apply chi2sfLoop_no_bracket
  intro sf _
  simp [chi2objfunct]

/-- Helper: when the invoked strategy fails with ValueError on every
kind, the find_reg_param loop substitutes NaN for every kind. -/
theorem findRegParamLoop_all_valueerror {N nb : ℕ} (lib : NumLib nb)
    (regList : List String) (regMats : String → Matrix (Fin nb) (Fin nb) ℚ)
    (A : Matrix (Fin N) (Fin nb) ℚ) (b W : Fin N → ℚ) (method : RegMethod)
    (hcall : ∀ rl, ∃ msg, callStrategy lib regList regMats A b W method rl =
      .error (.valueError msg)) :
    ∀ l, findRegParamLoop lib regList regMats A b W method l =
      .ok (l.map fun rl => (rl, RVal.nan)) := by
  intro l
  induction l with
  | nil => rfl
  | cons rl rest ih =>
    obtain ⟨msg, hmsg⟩ := hcall rl
    simp only [findRegParamLoop, hmsg, ih, List.map_cons, except_ok_bind]
    rfl

/-- Helper: a record whose sample values are all non-finite loses
every sample to the finite-value filter; with the chi2 method the
parameter search then fails with ValueError for every configured kind
(there is at least one), find_reg_param substitutes NaN for each kind,
and the record loop appends the all-NaN slot and returns normally. -/
theorem recordStep_allnan_slot {nb : ℕ} (lib : NumLib nb)
    (basisRow : (ℚ × ℚ × ℚ) → Fin nb → ℚ) (regList : List String)
    (regMats : String → Matrix (Fin nb) (Fin nb) ℚ)
    (coords : List (ℚ × ℚ × ℚ)) (r : FitRecord)
    (hvals : ∀ v ∈ r.values, v.isFinite = false)
    (hne : regList ≠ []) :
    recordStep lib basisRow regList regMats RegMethod.chi2m coords r =
      .ok (nanSlot nb) := by
  have hkept : keptSamples coords r = [] := by
    unfold keptSamples
    apply List.filter_eq_nil_iff.mpr
    rintro ⟨c, v, e⟩ hs
    have h2 : v ∈ r.values := (List.of_mem_zip (List.of_mem_zip hs).2).1
    simp [hvals v h2]
  have hN : (keptSamples coords r).length = 0 := by rw [hkept]; rfl
  have hcall : ∀ rl, ∃ msg, callStrategy lib regList regMats
      (recordA basisRow coords r) (recordB coords r) (recordW coords r)
      RegMethod.chi2m rl = .error (.valueError msg) :=
    fun rl => ⟨_, chi2_empty lib regList regMats _ _ _ rl hN⟩
  have hfrp : find_reg_param lib regList (recordA basisRow coords r)
      (recordB coords r) (recordW coords r) regMats RegMethod.chi2m =
      .ok (regList.map fun rl => (rl, RVal.nan)) :=
    findRegParamLoop_all_valueerror lib regList regMats _ _ _ RegMethod.chi2m
      hcall regList
  have hany : ((regList.map fun rl => (rl, RVal.nan)).any fun p => p.2.isNaN) = true := by
    cases regList with
    | nil => exact absurd rfl hne
    | cons a l => simp [RVal.isNaN]
  simp only [recordStep, hfrp, except_ok_bind, hany, if_true]
  rfl

/-- Claim C7: a record whose sample values are all non-finite yields,
under the chi2 method and a nonempty regularization list, the all-NaN
slot (all-NaN nbasis coefficient vector, all-NaN nbasis-by-nbasis
covariance matrix, NaN chi-squared), with no exception escaping the
record-processing step. -/
theorem c7_allnan_record_yields_nan_slot {nb : ℕ} (lib : NumLib nb)
    (basisRow : (ℚ × ℚ × ℚ) → Fin nb → ℚ) (regList : List String)
    (regMats : String → Matrix (Fin nb) (Fin nb) ℚ)
    (coords : List (ℚ × ℚ × ℚ)) (r : FitRecord)
    (hvals : ∀ v ∈ r.values, v.isFinite = false)
    (hne : regList ≠ []) :
    recordStep lib basisRow regList regMats RegMethod.chi2m coords r =
      .ok (nanSlot nb) :=
  recordStep_allnan_slot lib basisRow regList regMats coords r hvals hne

/-- Witness for C7 at the concrete session: a single record whose only
sample value is NaN yields the all-NaN slot without an exception. -/
theorem c7_allnan_record_witness :
    recordStep lib1 basisRow1 ["curvature"] mats1 RegMethod.chi2m coords1 recNaN =
      .ok (nanSlot 1) :=
  c7_allnan_record_yields_nan_slot lib1 basisRow1 ["curvature"] mats1 coords1 recNaN
    (by decide) (by decide)

/-- Claim C2: when fit() completes normally, the result arrays hold
exactly one slot per record, index-aligned with the timestamp array
(records.map time, the assignment self.time = utime), and every record
whose regularization-parameter dictionary contains a NaN occupies its
slot with the all-NaN coefficient vector of length nbasis, the all-NaN
nbasis-by-nbasis covariance matrix, and NaN chi-squared. -/
theorem c2_fit_slots_aligned_nan {nb : ℕ} (lib : NumLib nb)
    (basisRow : (ℚ × ℚ × ℚ) → Fin nb → ℚ) (regList : List String)
    (regMats : String → Matrix (Fin nb) (Fin nb) ℚ) (method : RegMethod)
    (coords : List (ℚ × ℚ × ℚ)) (records : List FitRecord) (slots : List FitSlot)
    (h : fitLoop lib basisRow regList regMats method coords records = .ok slots) :
    slots.length = (records.map fun r => r.time).length ∧
    ∀ (i : ℕ) (hi : i < records.length) (ps : List (String × RVal)),
      find_reg_param lib regList (recordA basisRow coords (records.get ⟨i, hi⟩))
          (recordB coords (records.get ⟨i, hi⟩))
          (recordW coords (records.get ⟨i, hi⟩)) regMats method = .ok ps →
      (ps.any fun p => p.2.isNaN) = true →
      slots[i]? = some (nanSlot nb) := by
  induction records generalizing slots with
  | nil =>
    simp only [fitLoop] at h
    obtain rfl : slots = [] := (Except.ok.inj h).symm
    exact ⟨rfl, fun i hi => absurd hi (Nat.not_lt_zero i)⟩
  | cons r rs ih =>
    cases hstep : recordStep lib basisRow regList regMats method coords r with
    | error e =>
      rw [fitLoop, hstep, except_error_bind] at h
      exact Except.noConfusion h
    | ok s =>
      cases hrest : fitLoop lib basisRow regList regMats method coords rs with
      | error e =>
        rw [fitLoop, hstep, except_ok_bind, hrest, except_error_bind] at h
        exact Except.noConfusion h
      | ok ss =>
        rw [fitLoop, hstep, except_ok_bind, hrest, except_ok_bind] at h
        obtain rfl : slots = s :: ss := (Except.ok.inj h).symm
        obtain ⟨ih1, ih2⟩ := ih ss hrest
        constructor
        · simp only [List.map_cons, List.length_cons, List.length_map] at ih1 ⊢
          omega
        · intro i hi ps hfrp hany
          cases i with
          | zero =>
            have hfrp0 : find_reg_param lib regList (recordA basisRow coords r)
                (recordB coords r) (recordW coords r) regMats method = .ok ps := hfrp
            have hs0 : recordStep lib basisRow regList regMats method coords r =
                .ok (nanSlot nb) := by
              simp only [recordStep, hfrp0, except_ok_bind, hany, if_true]
              rfl
            rw [hstep] at hs0
            have hsn : s = nanSlot nb := Except.ok.inj hs0
            simp [hsn]
          | succ j =>
            have hj : j < rs.length := by
              simpa [Nat.succ_lt_succ_iff] using hi
            have hfrpj : find_reg_param lib regList
                (recordA basisRow coords (rs.get ⟨j, hj⟩))
                (recordB coords (rs.get ⟨j, hj⟩))
                (recordW coords (rs.get ⟨j, hj⟩)) regMats method = .ok ps := hfrp
            have := ih2 j hj ps hfrpj hany
            simpa [List.getElem?_cons_succ] using this

/-- Witness for C2 at the concrete session: one record whose only
sample value is NaN makes fit complete normally with exactly one slot,
aligned with the one timestamp, and that slot is the all-NaN slot. -/
theorem c2_fit_slots_witness :
    fitLoop lib1 basisRow1 ["curvature"] mats1 RegMethod.chi2m coords1 [recNaN] =
      .ok [nanSlot 1] ∧
    ([nanSlot 1] : List FitSlot).length = ([recNaN].map fun r => r.time).length ∧
    ([nanSlot 1] : List FitSlot)[0]? = some (nanSlot 1) := by
  have hstep : recordStep lib1 basisRow1 ["curvature"] mats1 RegMethod.chi2m
      coords1 recNaN = .ok (nanSlot 1) :=
    recordStep_allnan_slot lib1 basisRow1 ["curvature"] mats1 coords1 recNaN
      (by decide) (by decide)
  have h : fitLoop lib1 basisRow1 ["curvature"] mats1 RegMethod.chi2m coords1
      [recNaN] = .ok [nanSlot 1] := by
    simp only [fitLoop, hstep, except_ok_bind]
    rfl
  have hN : (keptSamples coords1 recNaN).length = 0 := rfl
  have hfrp : find_reg_param lib1 ["curvature"] (recordA basisRow1 coords1 recNaN)
      (recordB coords1 recNaN) (recordW coords1 recNaN) mats1 RegMethod.chi2m =
      .ok [("curvature", RVal.nan)] :=
    findRegParamLoop_all_valueerror lib1 ["curvature"] mats1 _ _ _ RegMethod.chi2m
      (fun rl => ⟨_, chi2_empty lib1 ["curvature"] mats1 _ _ _ rl hN⟩) ["curvature"]
  refine ⟨h, ?_, ?_⟩
  · exact (c2_fit_slots_aligned_nan lib1 basisRow1 ["curvature"] mats1
      RegMethod.chi2m coords1 [recNaN] [nanSlot 1] h).1
  · exact (c2_fit_slots_aligned_nan lib1 basisRow1 ["curvature"] mats1
      RegMethod.chi2m coords1 [recNaN] [nanSlot 1] h).2 0 (by norm_num)
      [("curvature", RVal.nan)] hfrp (by decide)
